import Mathlib

/-!
Verification of the 2048 grid-transform engine from `src/App.tsx`:
the rotation normalizer (`rotateMap` with the degree tables
`rotateMapDeg` / `revertMapDeg`), the row compaction-and-merge pass
(`moveRowLeft`), the whole-grid move (`moveLeft`, `moveMapIn2048Rule`)
and the terminal predicate (`reached`).
-/

/-- A tile is either empty (`null` in the source) or holds a number. -/
abbrev Tile := Option Nat

/-- A grid is a list of rows of tiles. -/
abbrev Grid := List (List Tile)

/-- The four move directions. -/
inductive Direction where
  | up
  | down
  | left
  | right
deriving DecidableEq, Repr

/-- The `TARGET_TILE` constant of the source (both the merge ceiling and the
win target in the reference instance). -/
def TARGET_TILE : Nat := 128

/-- Forward rotation degrees per direction (`rotateMapDeg` in the source). -/
def rotateMapDeg : Direction → Nat
  | .up => 90
  | .right => 180
  | .down => 270
  | .left => 0

/-- Reverse rotation degrees per direction (`revertMapDeg` in the source). -/
def revertMapDeg : Direction → Nat
  | .up => 270
  | .right => 180
  | .down => 90
  | .left => 0

/-- Cell access `map[r][c]`; `none` when out of bounds. -/
def cell (m : Grid) (r c : Nat) : Tile :=
  ((m[r]?).bind fun row => row[c]?).getD none

/-- `map[0].length`; `0` for the empty grid (where the source throws). -/
def width (m : Grid) : Nat := (m.headD []).length

/-- Build a grid from an index function, as the nested `Array.from` calls of
the source do. -/
def mkGrid (R C : Nat) (f : Nat → Nat → Tile) : Grid :=
  (List.range R).map fun r => (List.range C).map fun c => f r c

/-- `rotateMap` from the source.  Degrees other than 0, 90, 180 land in the
final branch, exactly as the source's trailing `// 270` return does. -/
def rotateMap (m : Grid) (deg : Nat) : Grid :=
  let R := m.length
  let C := width m
  if deg = 0 then m
  else if deg = 90 then mkGrid C R fun c r => cell m r (C - c - 1)
  else if deg = 180 then mkGrid R C fun r c => cell m (R - r - 1) (C - c - 1)
  else mkGrid C R fun c r => cell m (R - r - 1) c

/-- Accumulator of the `reduce` inside `moveRowLeft`. -/
structure RowAcc where
  last : Tile
  result : List Tile
  gained : Nat
deriving DecidableEq, Repr

/-- One step of the `reduce` inside `moveRowLeft`: skip empty cells, fill the
pending slot, merge when equal and the doubled value stays within
`TARGET_TILE`, otherwise flush the pending slot. -/
def moveRowStep : RowAcc → Tile → RowAcc
  | acc, none => acc
  | ⟨none, res, g⟩, some c => ⟨some c, res, g⟩
  | ⟨some l, res, g⟩, some c =>
    if l = c ∧ c * 2 ≤ TARGET_TILE then ⟨none, res ++ [some (c * 2)], g + c * 2⟩
    else ⟨some c, res ++ [some l], g⟩

/-- `Array.from({length: n}, (_, i) => arr[i] ?? null)`. -/
def padTo (n : Nat) (xs : List Tile) : List Tile :=
  (List.range n).map fun i => (xs[i]?).getD none

/-- Result record of `moveRowLeft`. -/
structure RowOut where
  result : List Tile
  isMoved : Bool
  gained : Nat
deriving DecidableEq, Repr

/-- `moveRowLeft` from the source. -/
def moveRowLeft (row : List Tile) : RowOut :=
  let red := row.foldl moveRowStep ⟨none, [], 0⟩
  let arr := red.result ++ [red.last]
  let out := padTo row.length arr
  ⟨out, (row.zip out).any fun p => decide (p.1 ≠ p.2), red.gained⟩

/-- Result record of `moveLeft` / `moveMapIn2048Rule`. -/
structure MoveOut where
  result : Grid
  isMoved : Bool
  gained : Nat
deriving DecidableEq, Repr

/-- `moveLeft` from the source. -/
def moveLeft (m : Grid) : MoveOut :=
  let rows := m.map moveRowLeft
  ⟨rows.map (·.result), rows.any (·.isMoved), rows.foldl (fun s x => s + x.gained) 0⟩

/-- `moveMapIn2048Rule` from the source: rotate forward, merge every row
leftwards, rotate back. -/
def moveMapIn2048Rule (m : Grid) (d : Direction) : MoveOut :=
  let rotated := rotateMap m (rotateMapDeg d)
  let mv := moveLeft rotated
  ⟨rotateMap mv.result (revertMapDeg d), mv.isMoved, mv.gained⟩

/-- `reached` from the source: some cell is non-empty and at least `t`. -/
def reached (m : Grid) (t : Nat) : Bool :=
  m.any fun row => row.any fun v =>
    match v with
    | none => false
    | some x => decide (t ≤ x)

/-- Recursive description of the pending/flush/merge discipline of the
`moveRowLeft` reduce, acting on the list of non-empty values of a row:
returns the flushed output values, the final pending tile, and the score
gained. -/
def mergeRun : Option Nat → List Nat → List Nat × Option Nat × Nat
  | l, [] => ([], l, 0)
  | none, c :: rest => mergeRun (some c) rest
  | some l, c :: rest =>
    if l = c ∧ c * 2 ≤ TARGET_TILE then
      (c * 2 :: (mergeRun none rest).1, (mergeRun none rest).2.1,
        (mergeRun none rest).2.2 + c * 2)
    else
      (l :: (mergeRun (some c) rest).1, (mergeRun (some c) rest).2.1,
        (mergeRun (some c) rest).2.2)

/-- The values of the merged tiles created by the merge discipline: each
merge of a pair of equal tiles `v` records the created tile `v * 2`. -/
def mergedVals : Option Nat → List Nat → List Nat
  | _, [] => []
  | none, c :: rest => mergedVals (some c) rest
  | some l, c :: rest =>
    if l = c ∧ c * 2 ≤ TARGET_TILE then c * 2 :: mergedVals none rest
    else mergedVals (some c) rest

/-- Merged-tile values created by `moveRowLeft` on `row`. -/
def rowMerged (row : List Tile) : List Nat :=
  mergedVals none (row.filterMap id)

/-- The non-empty values of the row produced by `moveRowLeft row`, in
order. -/
def finalVals (row : List Tile) : List Nat :=
  (mergeRun none (row.filterMap id)).1 ++
    (mergeRun none (row.filterMap id)).2.1.toList

/-- Rectangularity: `R` rows, each of length `C`. -/
def Rect (m : Grid) (R C : Nat) : Prop :=
  m.length = R ∧ ∀ row ∈ m, row.length = C

instance (m : Grid) (R C : Nat) : Decidable (Rect m R C) := by
  unfold Rect
  infer_instance

/-- The non-empty tile values of a grid, row-major. -/
def gridVals (m : Grid) : List Nat := m.flatten.filterMap id

/-- Checked cell access: `none` when out of bounds. -/
def cellChk (m : Grid) (r c : Nat) : Option Tile :=
  (m[r]?).bind fun row => row[c]?

/-- Collect a list of options, failing when any entry is missing. -/
def allSome {α : Type} : List (Option α) → Option (List α)
  | [] => some []
  | none :: _ => none
  | some a :: xs => (allSome xs).map (a :: ·)

/-- `rotateMap` with every array access checked: `none` exactly when the
source would fault (`map[0].length` on the empty grid) or read out of
range. -/
def rotateMapChk (m : Grid) (deg : Nat) : Option Grid :=
  match m with
  | [] => none
  | _ :: _ =>
    let R := m.length
    let C := width m
    if deg = 0 then some m
    else if deg = 90 then
      allSome ((List.range C).map fun c =>
        allSome ((List.range R).map fun r => cellChk m r (C - c - 1)))
    else if deg = 180 then
      allSome ((List.range R).map fun r =>
        allSome ((List.range C).map fun c => cellChk m (R - r - 1) (C - c - 1)))
    else
      allSome ((List.range C).map fun c =>
        allSome ((List.range R).map fun r => cellChk m (R - r - 1) c))

/-- `moveMapIn2048Rule` with checked rotations. -/
def moveMapChk (m : Grid) (d : Direction) : Option MoveOut :=
  (rotateMapChk m (rotateMapDeg d)).bind fun rot =>
    (rotateMapChk (moveLeft rot).result (revertMapDeg d)).map fun res =>
      ⟨res, (moveLeft rot).isMoved, (moveLeft rot).gained⟩

/-- The `moveRowLeft` reduce step with the merge ceiling as a parameter.
Written from the spec sentence that the merge ceiling is an independent
configuration input of the engine; to be compared against the source's
`moveRowStep`, which reads the fixed constant `TARGET_TILE`. -/
def moveRowStepCeil (t : Nat) : RowAcc → Tile → RowAcc
  | acc, none => acc
  | ⟨none, res, g⟩, some c => ⟨some c, res, g⟩
  | ⟨some l, res, g⟩, some c =>
    if l = c ∧ c * 2 ≤ t then ⟨none, res ++ [some (c * 2)], g + c * 2⟩
    else ⟨some c, res ++ [some l], g⟩

/-- `moveRowLeft` with the merge ceiling as a parameter (the spec-worded
configurable variant). -/
def moveRowLeftCeil (t : Nat) (row : List Tile) : RowOut :=
  let red := row.foldl (moveRowStepCeil t) ⟨none, [], 0⟩
  let arr := red.result ++ [red.last]
  let out := padTo row.length arr
  ⟨out, (row.zip out).any fun p => decide (p.1 ≠ p.2), red.gained⟩

/-! ### Row-level lemmas: the reduce of `moveRowLeft` versus `mergeRun` -/

theorem foldl_moveRowStep (xs : List Tile) (l : Tile) (res : List Tile) (g : Nat) :
    xs.foldl moveRowStep ⟨l, res, g⟩ =
      ⟨(mergeRun l (xs.filterMap id)).2.1,
        res ++ (mergeRun l (xs.filterMap id)).1.map some,
        g + (mergeRun l (xs.filterMap id)).2.2⟩ := by
  induction xs generalizing l res g with
  | nil => simp [mergeRun]
  | cons x xs ih =>
    cases x with
    | none =>
      simpa [moveRowStep] using ih l res g
    | some c =>
      cases l with
      | none =>
        simpa [moveRowStep, mergeRun] using ih (some c) res g
      | some l0 =>
        by_cases h : l0 = c ∧ c * 2 ≤ TARGET_TILE
        · simp only [List.foldl_cons, moveRowStep, if_pos h, List.filterMap_cons, id,
            mergeRun]
          rw [ih]
          simp [if_pos h, mergeRun]
          omega
        · simp only [List.foldl_cons, moveRowStep, if_neg h, List.filterMap_cons, id,
            mergeRun]
          rw [ih]
          simp [if_neg h, mergeRun]

theorem length_padTo (n : Nat) (xs : List Tile) : (padTo n xs).length = n := by
  simp [padTo]

theorem getElem?_padTo (n : Nat) (xs : List Tile) (i : Nat) :
    (padTo n xs)[i]? = if i < n then some ((xs[i]?).getD none) else none := by
  unfold padTo
  by_cases h : i < n
  · rw [List.getElem?_map, List.getElem?_range h]
    simp [h]
  · rw [if_neg h, List.getElem?_eq_none]
    simpa using Nat.le_of_not_lt h

theorem padTo_append_none (n : Nat) (xs : List Tile) :
    padTo n (xs ++ [none]) = padTo n xs := by
  apply List.ext_getElem?
  intro i
  rw [getElem?_padTo, getElem?_padTo]
  by_cases h : i < n
  · simp only [if_pos h]
    congr 1
    rw [List.getElem?_append]
    by_cases h2 : i < xs.length
    · simp [h2]
    · rw [if_neg h2, List.getElem?_eq_none (Nat.le_of_not_lt h2)]
      cases hk : i - xs.length with
      | zero => rfl
      | succ k => rfl
  · simp [if_neg h]

theorem padTo_of_le (n : Nat) (xs : List Tile) (h : xs.length ≤ n) :
    padTo n xs = xs ++ List.replicate (n - xs.length) none := by
  apply List.ext_getElem?
  intro i
  rw [getElem?_padTo, List.getElem?_append, List.getElem?_replicate]
  by_cases h1 : i < xs.length
  · rw [if_pos h1, if_pos (Nat.lt_of_lt_of_le h1 h)]
    rw [List.getElem?_eq_getElem h1]
    rfl
  · rw [if_neg h1, List.getElem?_eq_none (Nat.le_of_not_lt h1)]
    by_cases h2 : i < n
    · rw [if_pos h2, if_pos (by omega)]
      rfl
    · rw [if_neg h2, if_neg (by omega)]

theorem mergeRun_length (l : Option Nat) (nn : List Nat) :
    (mergeRun l nn).1.length + (mergeRun l nn).2.1.toList.length ≤
      l.toList.length + nn.length := by
  induction nn generalizing l with
  | nil => simp [mergeRun]
  | cons c rest ih =>
    cases l with
    | none =>
      have := ih (some c)
      simp only [mergeRun, Option.toList] at this ⊢
      simp at this ⊢
      omega
    | some l0 =>
      by_cases h : l0 = c ∧ c * 2 ≤ TARGET_TILE
      · have := ih none
        simp only [mergeRun, if_pos h, Option.toList] at this ⊢
        simp at this ⊢
        omega
      · have := ih (some c)
        simp only [mergeRun, if_neg h, Option.toList] at this ⊢
        simp at this ⊢
        omega

theorem finalVals_length_le (row : List Tile) :
    (finalVals row).length ≤ row.length := by
  have h1 := mergeRun_length none (row.filterMap id)
  have h2 := List.length_filterMap_le id row
  simp only [finalVals, List.length_append]
  simp only [Option.toList_none, List.length_nil, Nat.zero_add] at h1
  omega

theorem moveRowLeft_result (row : List Tile) :
    (moveRowLeft row).result =
      (finalVals row).map some ++
        List.replicate (row.length - (finalVals row).length) none := by
  have hlen := finalVals_length_le row
  show padTo row.length
      ((row.foldl moveRowStep ⟨none, [], 0⟩).result ++
        [(row.foldl moveRowStep ⟨none, [], 0⟩).last]) = _
  rw [foldl_moveRowStep]
  rcases hp : (mergeRun none (row.filterMap id)).2.1 with _ | v
  · have harr : ((mergeRun none (row.filterMap id)).1.map some : List Tile) ++ [none] =
        (finalVals row).map some ++ [none] := by
      simp [finalVals, hp]
    simp only [List.nil_append]
    rw [harr, padTo_append_none]
    rw [padTo_of_le _ _ (by simpa using hlen)]
    simp
  · have harr : ((mergeRun none (row.filterMap id)).1.map some : List Tile) ++ [some v] =
        (finalVals row).map some := by
      simp [finalVals, hp, Option.toList]
    simp only [List.nil_append]
    rw [harr]
    rw [padTo_of_le _ _ (by simpa using hlen)]
    simp

theorem moveRowLeft_gained (row : List Tile) :
    (moveRowLeft row).gained = (mergeRun none (row.filterMap id)).2.2 := by
  show (row.foldl moveRowStep ⟨none, [], 0⟩).gained = _
  rw [foldl_moveRowStep]
  simp

theorem moveRowLeft_length (row : List Tile) :
    (moveRowLeft row).result.length = row.length := by
  show (padTo row.length _).length = _
  exact length_padTo _ _

theorem mergeRun_le (l : Option Nat) (nn : List Nat)
    (hl : ∀ v, l = some v → v ≤ TARGET_TILE) (hnn : ∀ v ∈ nn, v ≤ TARGET_TILE) :
    (∀ v ∈ (mergeRun l nn).1, v ≤ TARGET_TILE) ∧
      (∀ v, (mergeRun l nn).2.1 = some v → v ≤ TARGET_TILE) := by
  induction nn generalizing l with
  | nil => exact ⟨by simp [mergeRun], by simpa [mergeRun] using hl⟩
  | cons c rest ih =>
    have hc : c ≤ TARGET_TILE := hnn c (by simp)
    have hrest : ∀ v ∈ rest, v ≤ TARGET_TILE := fun v hv => hnn v (by simp [hv])
    cases l with
    | none =>
      simpa [mergeRun] using
        ih (some c) (fun v h => by injection h with h; exact h ▸ hc) hrest
    | some l0 =>
      by_cases h : l0 = c ∧ c * 2 ≤ TARGET_TILE
      · have hrec := ih none (by simp) hrest
        constructor
        · intro v hv
          simp only [mergeRun, if_pos h] at hv
          rcases List.mem_cons.mp hv with rfl | hv
          · omega
          · exact hrec.1 v hv
        · intro v hv
          simp only [mergeRun, if_pos h] at hv
          exact hrec.2 v hv
      · have hl0 := hl l0 rfl
        have hrec := ih (some c) (fun v hv => by injection hv with hv; exact hv ▸ hc) hrest
        constructor
        · intro v hv
          simp only [mergeRun, if_neg h] at hv
          rcases List.mem_cons.mp hv with rfl | hv
          · exact hl0
          · exact hrec.1 v hv
        · intro v hv
          simp only [mergeRun, if_neg h] at hv
          exact hrec.2 v hv

theorem mergeRun_gained_even (l : Option Nat) (nn : List Nat) :
    Even (mergeRun l nn).2.2 := by
  induction nn generalizing l with
  | nil => simp [mergeRun]
  | cons c rest ih =>
    cases l with
    | none => simpa [mergeRun] using ih (some c)
    | some l0 =>
      by_cases h : l0 = c ∧ c * 2 ≤ TARGET_TILE
      · simp only [mergeRun, if_pos h]
        exact (ih none).add ⟨c, by ring⟩
      · simpa [mergeRun, if_neg h] using ih (some c)

theorem mergeRun_gained_eq_sum (l : Option Nat) (nn : List Nat) :
    (mergeRun l nn).2.2 = (mergedVals l nn).sum := by
  induction nn generalizing l with
  | nil => simp [mergeRun, mergedVals]
  | cons c rest ih =>
    cases l with
    | none => simpa [mergeRun, mergedVals] using ih (some c)
    | some l0 =>
      by_cases h : l0 = c ∧ c * 2 ≤ TARGET_TILE
      · simp only [mergeRun, mergedVals, if_pos h, List.sum_cons, ih none]
        omega
      · simpa [mergeRun, mergedVals, if_neg h] using ih (some c)

theorem mergedVals_doubled (l : Option Nat) (nn : List Nat) :
    ∀ x ∈ mergedVals l nn, ∃ v, x = v * 2 ∧ v * 2 ≤ TARGET_TILE := by
  induction nn generalizing l with
  | nil => simp [mergedVals]
  | cons c rest ih =>
    cases l with
    | none => simpa [mergedVals] using ih (some c)
    | some l0 =>
      by_cases h : l0 = c ∧ c * 2 ≤ TARGET_TILE
      · intro x hx
        simp only [mergedVals, if_pos h] at hx
        rcases List.mem_cons.mp hx with rfl | hx
        · exact ⟨c, rfl, h.2⟩
        · exact ih none x hx
      · intro x hx
        simp only [mergedVals, if_neg h] at hx
        exact ih (some c) x hx

theorem mergeRun_no_merge (l : Option Nat) (nn : List Nat)
    (hl : ∀ v, l = some v → 0 < v) (hnn : ∀ v ∈ nn, 0 < v)
    (hg : (mergeRun l nn).2.2 = 0) :
    (mergeRun l nn).1 ++ (mergeRun l nn).2.1.toList = l.toList ++ nn := by
  induction nn generalizing l with
  | nil => simp [mergeRun]
  | cons c rest ih =>
    have hc : 0 < c := hnn c (by simp)
    have hrest : ∀ v ∈ rest, 0 < v := fun v hv => hnn v (by simp [hv])
    cases l with
    | none =>
      simp only [mergeRun] at hg ⊢
      simpa using
        ih (some c) (fun v h => by injection h with h; exact h ▸ hc) hrest hg
    | some l0 =>
      by_cases h : l0 = c ∧ c * 2 ≤ TARGET_TILE
      · exfalso
        simp only [mergeRun, if_pos h] at hg
        omega
      · simp only [mergeRun, if_neg h] at hg ⊢
        rw [List.cons_append,
          ih (some c) (fun v hv => by injection hv with hv; exact hv ▸ hc) hrest hg]
        simp

theorem mergeRun_count_ge (v : Nat) (hv : TARGET_TILE < v * 2)
    (l : Option Nat) (nn : List Nat) :
    nn.count v + l.toList.count v ≤
      (mergeRun l nn).1.count v + (mergeRun l nn).2.1.toList.count v := by
  induction nn generalizing l with
  | nil => simp [mergeRun]
  | cons c rest ih =>
    cases l with
    | none =>
      have h := ih (some c)
      simp only [mergeRun, Option.toList_some, Option.toList_none] at h ⊢
      simp only [List.count_cons, List.count_nil] at h ⊢
      by_cases hc : c = v <;> simp [hc] at h ⊢ <;> omega
    | some l0 =>
      by_cases h : l0 = c ∧ c * 2 ≤ TARGET_TILE
      · have hcv : ¬ (c = v) := by omega
        have hrec := ih none
        simp only [mergeRun, if_pos h, Option.toList_some, Option.toList_none] at hrec ⊢
        simp only [List.count_cons, List.count_nil, h.1] at hrec ⊢
        by_cases h2 : c * 2 = v <;> simp [hcv, h2] <;> omega
      · have hrec := ih (some c)
        simp only [mergeRun, if_neg h, Option.toList_some, Option.toList_none] at hrec ⊢
        simp only [List.count_cons, List.count_nil] at hrec ⊢
        by_cases hc : c = v <;> by_cases hl0 : l0 = v <;>
          simp [hc, hl0] at hrec ⊢ <;> omega

theorem count_filterMap_id (row : List Tile) (v : Nat) :
    (row.filterMap id).count v = row.count (some v) := by
  induction row with
  | nil => rfl
  | cons x xs ih =>
    cases x with
    | none => simp [List.filterMap_cons, List.count_cons, ih]
    | some a =>
      simp only [List.filterMap_cons, id, List.count_cons, ih]
      by_cases ha : a = v <;> simp [ha]

theorem mem_filterMap_id (row : List Tile) (v : Nat) :
    v ∈ row.filterMap id ↔ some v ∈ row := by
  simp [List.mem_filterMap]

theorem any_zip_ne (xs ys : List Tile) (h : xs.length = ys.length) :
    (((xs.zip ys).any fun p => decide (p.1 ≠ p.2)) = true) ↔ xs ≠ ys := by
  induction xs generalizing ys with
  | nil =>
    cases ys with
    | nil => simp
    | cons y ys => simp at h
  | cons x xs ih =>
    cases ys with
    | nil => simp at h
    | cons y ys =>
      simp only [List.zip_cons_cons, List.any_cons, Bool.or_eq_true, decide_eq_true_eq]
      rw [ih ys (by simpa using h)]
      simp only [ne_eq, List.cons.injEq, not_and_or]

theorem moveRowLeft_isMoved (row : List Tile) :
    ((moveRowLeft row).isMoved = true) ↔ (moveRowLeft row).result ≠ row := by
  have h := any_zip_ne row (moveRowLeft row).result (moveRowLeft_length row).symm
  rw [show (moveRowLeft row).isMoved =
    ((row.zip (moveRowLeft row).result).any fun p => decide (p.1 ≠ p.2)) from rfl]
  rw [h]
  exact ne_comm

theorem moveLeft_result (m : Grid) :
    (moveLeft m).result = m.map fun r => (moveRowLeft r).result := by
  simp [moveLeft]

theorem foldl_add_gained (l : List RowOut) (s : Nat) :
    l.foldl (fun a x => a + x.gained) s = s + (l.map (·.gained)).sum := by
  induction l generalizing s with
  | nil => simp
  | cons x xs ih =>
    simp only [List.foldl_cons, List.map_cons, List.sum_cons, ih]
    omega

theorem moveLeft_gained (m : Grid) :
    (moveLeft m).gained = (m.map fun r => (moveRowLeft r).gained).sum := by
  show (m.map moveRowLeft).foldl (fun s x => s + x.gained) 0 = _
  rw [foldl_add_gained]
  simp only [Nat.zero_add, List.map_map]
  rfl

theorem map_result_ne_iff (m : Grid) :
    (((m.map moveRowLeft).any (·.isMoved)) = true) ↔
      (m.map fun r => (moveRowLeft r).result) ≠ m := by
  induction m with
  | nil => simp
  | cons r rs ih =>
    simp only [List.map_cons, List.any_cons, Bool.or_eq_true]
    rw [ih, moveRowLeft_isMoved r]
    simp only [ne_eq, List.cons.injEq, not_and_or]

theorem moveLeft_isMoved_iff (m : Grid) :
    ((moveLeft m).isMoved = true) ↔ (moveLeft m).result ≠ m := by
  rw [moveLeft_result]
  exact map_result_ne_iff m

/-! ### Rotation lemmas -/

theorem length_mkGrid (R C : Nat) (f : Nat → Nat → Tile) :
    (mkGrid R C f).length = R := by
  simp [mkGrid]

theorem Rect_mkGrid (R C : Nat) (f : Nat → Nat → Tile) : Rect (mkGrid R C f) R C := by
  refine ⟨by simp [mkGrid], ?_⟩
  intro row hrow
  simp only [mkGrid, List.mem_map, List.mem_range] at hrow
  obtain ⟨r, _, rfl⟩ := hrow
  simp

theorem getElem?_mkGrid (R C : Nat) (f : Nat → Nat → Tile) (r : Nat) (hr : r < R) :
    (mkGrid R C f)[r]? = some ((List.range C).map fun c => f r c) := by
  unfold mkGrid
  rw [List.getElem?_map, List.getElem?_range hr]
  rfl

theorem cell_mkGrid (R C : Nat) (f : Nat → Nat → Tile) (r c : Nat)
    (hr : r < R) (hc : c < C) : cell (mkGrid R C f) r c = f r c := by
  unfold cell
  rw [getElem?_mkGrid R C f r hr]
  show (((List.range C).map fun c => f r c)[c]?).getD none = f r c
  rw [List.getElem?_map, List.getElem?_range hc]
  rfl

theorem cell_eq (m : Grid) (r c : Nat) (hr : r < m.length) (hc : c < (m[r]).length) :
    cell m r c = (m[r])[c] := by
  unfold cell
  rw [List.getElem?_eq_getElem hr]
  show ((m[r])[c]?).getD none = _
  rw [List.getElem?_eq_getElem hc]
  rfl

theorem mkGrid_cell_eq (m : Grid) (R C : Nat) (h : Rect m R C) :
    mkGrid R C (cell m) = m := by
  obtain ⟨hlen, hrows⟩ := h
  apply List.ext_getElem?
  intro r
  by_cases hr : r < R
  · have hrm : r < m.length := by omega
    rw [getElem?_mkGrid R C _ r hr, List.getElem?_eq_getElem hrm]
    congr 1
    have hrowlen : (m[r]).length = C := hrows _ (List.getElem_mem hrm)
    apply List.ext_getElem?
    intro c
    by_cases hc : c < C
    · have hcm : c < (m[r]).length := by omega
      rw [List.getElem?_map, List.getElem?_range hc, List.getElem?_eq_getElem hcm]
      show some (cell m r c) = some (m[r])[c]
      rw [cell_eq m r c hrm hcm]
    · rw [List.getElem?_eq_none (by simpa using Nat.le_of_not_lt hc),
        List.getElem?_eq_none (by omega)]
  · rw [List.getElem?_eq_none (l := mkGrid R C (cell m)) (by rw [length_mkGrid]; omega),
      List.getElem?_eq_none (by omega)]

theorem mkGrid_congr (R C : Nat) (f g : Nat → Nat → Tile)
    (h : ∀ r, r < R → ∀ c, c < C → f r c = g r c) :
    mkGrid R C f = mkGrid R C g := by
  unfold mkGrid
  apply List.map_congr_left
  intro r hr
  apply List.map_congr_left
  intro c hc
  exact h r (List.mem_range.mp hr) c (List.mem_range.mp hc)

theorem width_eq (m : Grid) (R C : Nat) (h : Rect m R C) (hR : 0 < R) :
    width m = C := by
  cases m with
  | nil => simp [← h.1] at hR
  | cons row rows => exact h.2 row (by simp)

theorem rotateMap_0 (m : Grid) : rotateMap m 0 = m := rfl

theorem rotateMap_90 (m : Grid) (R C : Nat) (h : Rect m R C) (hR : 0 < R) :
    rotateMap m 90 = mkGrid C R fun c r => cell m r (C - c - 1) := by
  rw [show rotateMap m 90 = mkGrid (width m) m.length
      (fun c r => cell m r (width m - c - 1)) from rfl]
  rw [width_eq m R C h hR, h.1]

theorem rotateMap_180 (m : Grid) (R C : Nat) (h : Rect m R C) (hR : 0 < R) :
    rotateMap m 180 = mkGrid R C fun r c => cell m (R - r - 1) (C - c - 1) := by
  rw [show rotateMap m 180 = mkGrid m.length (width m)
      (fun r c => cell m (m.length - r - 1) (width m - c - 1)) from rfl]
  rw [width_eq m R C h hR, h.1]

theorem rotateMap_270 (m : Grid) (R C : Nat) (h : Rect m R C) (hR : 0 < R) :
    rotateMap m 270 = mkGrid C R fun c r => cell m (R - r - 1) c := by
  rw [show rotateMap m 270 = mkGrid (width m) m.length
      (fun c r => cell m (m.length - r - 1) c) from rfl]
  rw [width_eq m R C h hR, h.1]

theorem rotate90_then_270 (m : Grid) (R C : Nat) (h : Rect m R C)
    (hR : 0 < R) (hC : 0 < C) :
    rotateMap (rotateMap m 90) 270 = m := by
  rw [rotateMap_90 m R C h hR]
  rw [rotateMap_270 _ C R (Rect_mkGrid C R _) hC]
  conv_rhs => rw [← mkGrid_cell_eq m R C h]
  apply mkGrid_congr
  intro a ha b hb
  rw [cell_mkGrid C R _ (C - b - 1) a (by omega) ha]
  have hbb : C - (C - b - 1) - 1 = b := by omega
  rw [hbb]

theorem rotate270_then_90 (m : Grid) (R C : Nat) (h : Rect m R C)
    (hR : 0 < R) (hC : 0 < C) :
    rotateMap (rotateMap m 270) 90 = m := by
  rw [rotateMap_270 m R C h hR]
  rw [rotateMap_90 _ C R (Rect_mkGrid C R _) hC]
  conv_rhs => rw [← mkGrid_cell_eq m R C h]
  apply mkGrid_congr
  intro a ha b hb
  rw [cell_mkGrid C R _ b (R - a - 1) hb (by omega)]
  have haa : R - (R - a - 1) - 1 = a := by omega
  rw [haa]

theorem rotate180_then_180 (m : Grid) (R C : Nat) (h : Rect m R C)
    (hR : 0 < R) (hC : 0 < C) :
    rotateMap (rotateMap m 180) 180 = m := by
  rw [rotateMap_180 m R C h hR]
  rw [rotateMap_180 _ R C (Rect_mkGrid R C _) hR]
  conv_rhs => rw [← mkGrid_cell_eq m R C h]
  apply mkGrid_congr
  intro a ha b hb
  rw [cell_mkGrid R C _ (R - a - 1) (C - b - 1) (by omega) (by omega)]
  have haa : R - (R - a - 1) - 1 = a := by omega
  have hbb : C - (C - b - 1) - 1 = b := by omega
  rw [haa, hbb]

theorem cell_mem_or (m : Grid) (r c : Nat) :
    cell m r c = none ∨ cell m r c ∈ m.flatten := by
  unfold cell
  rcases h1 : m[r]? with _ | row
  · left
    rfl
  · rcases h2 : row[c]? with _ | x
    · left
      show (row[c]?).getD none = none
      rw [h2]
      rfl
    · right
      have hrow : row ∈ m := List.getElem?_mem h1
      have hx : x ∈ row := List.getElem?_mem h2
      show (row[c]?).getD none ∈ m.flatten
      rw [h2]
      exact List.mem_flatten.mpr ⟨row, hrow, hx⟩

theorem mem_mkGrid_flatten (R C : Nat) (f : Nat → Nat → Tile) (x : Tile)
    (hx : x ∈ (mkGrid R C f).flatten) : ∃ r c, f r c = x := by
  rw [List.mem_flatten] at hx
  obtain ⟨row, hrow, hxr⟩ := hx
  simp only [mkGrid, List.mem_map, List.mem_range] at hrow
  obtain ⟨r, _, rfl⟩ := hrow
  simp only [List.mem_map, List.mem_range] at hxr
  obtain ⟨c, _, rfl⟩ := hxr
  exact ⟨r, c, rfl⟩

theorem mem_rotateMap (m : Grid) (deg : Nat) (v : Nat)
    (hv : some v ∈ (rotateMap m deg).flatten) : some v ∈ m.flatten := by
  simp only [rotateMap] at hv
  split_ifs at hv with h0 h90 h180
  · exact hv
  · obtain ⟨r, c, hrc⟩ := mem_mkGrid_flatten _ _ _ _ hv
    rcases cell_mem_or m c (width m - r - 1) with hnone | hmem
    · simp [hrc] at hnone
    · rwa [hrc] at hmem
  · obtain ⟨r, c, hrc⟩ := mem_mkGrid_flatten _ _ _ _ hv
    rcases cell_mem_or m (m.length - r - 1) (width m - c - 1) with hnone | hmem
    · simp [hrc] at hnone
    · rwa [hrc] at hmem
  · obtain ⟨r, c, hrc⟩ := mem_mkGrid_flatten _ _ _ _ hv
    rcases cell_mem_or m (m.length - c - 1) r with hnone | hmem
    · simp [hrc] at hnone
    · rwa [hrc] at hmem

theorem listSum_range (h : Nat → Nat) (n : Nat) :
    ((List.range n).map h).sum = ∑ i ∈ Finset.range n, h i := by
  induction n with
  | zero => simp
  | succ k ih =>
    rw [List.range_succ, List.map_append, List.sum_append, Finset.sum_range_succ, ih]
    simp

theorem count_map_eq_sum (g : Nat → Tile) (a : Tile) (l : List Nat) :
    (l.map g).count a = (l.map fun i => if g i = a then 1 else 0).sum := by
  induction l with
  | nil => rfl
  | cons x xs ih =>
    simp only [List.map_cons, List.count_cons, List.sum_cons, ih]
    by_cases h : g x = a
    · simp only [if_pos h, h, beq_self_eq_true, if_true]
      omega
    · simp only [if_neg h]
      rw [if_neg (by simpa using h)]
      omega

theorem count_flatten_mkGrid (R C : Nat) (f : Nat → Nat → Tile) (a : Tile) :
    (mkGrid R C f).flatten.count a =
      ∑ r ∈ Finset.range R, ∑ c ∈ Finset.range C, (if f r c = a then 1 else 0) := by
  rw [List.count_flatten]
  unfold mkGrid
  rw [List.map_map]
  have hcomp : (List.count a ∘ fun r => (List.range C).map fun c => f r c) =
      fun r => ((List.range C).map fun c => if f r c = a then 1 else 0).sum := by
    funext r
    exact count_map_eq_sum (fun c => f r c) a (List.range C)
  rw [hcomp]
  rw [show (List.map (fun r => ((List.range C).map fun c => if f r c = a then 1 else 0).sum)
      (List.range R)) = (List.range R).map
      fun r => ((List.range C).map fun c => if f r c = a then 1 else 0).sum from rfl]
  rw [listSum_range]
  apply Finset.sum_congr rfl
  intro r _
  exact listSum_range (fun c => if f r c = a then 1 else 0) C

theorem count_flatten_eq_sum (m : Grid) (R C : Nat) (h : Rect m R C) (a : Tile) :
    m.flatten.count a =
      ∑ r ∈ Finset.range R, ∑ c ∈ Finset.range C, (if cell m r c = a then 1 else 0) := by
  conv_lhs => rw [← mkGrid_cell_eq m R C h]
  exact count_flatten_mkGrid R C (cell m) a

theorem rotateMap_else (m : Grid) (deg : Nat) (R C : Nat) (h : Rect m R C) (hR : 0 < R)
    (h0 : deg ≠ 0) (h90 : deg ≠ 90) (h180 : deg ≠ 180) :
    rotateMap m deg = mkGrid C R fun c r => cell m (R - r - 1) c := by
  simp only [rotateMap, if_neg h0, if_neg h90, if_neg h180]
  rw [width_eq m R C h hR, h.1]

theorem count_rotateMap (m : Grid) (R C : Nat) (h : Rect m R C) (hR : 0 < R)
    (hC : 0 < C) (deg : Nat) (a : Tile) :
    (rotateMap m deg).flatten.count a = m.flatten.count a := by
  by_cases h0 : deg = 0
  · rw [h0, rotateMap_0]
  · by_cases h90 : deg = 90
    · rw [h90, rotateMap_90 m R C h hR, count_flatten_mkGrid,
        count_flatten_eq_sum m R C h a, Finset.sum_comm]
      apply Finset.sum_congr rfl
      intro r _
      rw [← Finset.sum_range_reflect (fun c => if cell m r c = a then 1 else 0) C]
      apply Finset.sum_congr rfl
      intro c _
      have hcc : C - c - 1 = C - 1 - c := by omega
      rw [hcc]
    · by_cases h180 : deg = 180
      · rw [h180, rotateMap_180 m R C h hR, count_flatten_mkGrid,
          count_flatten_eq_sum m R C h a]
        rw [← Finset.sum_range_reflect
          (fun r => ∑ c ∈ Finset.range C, if cell m r c = a then 1 else 0) R]
        apply Finset.sum_congr rfl
        intro r _
        rw [← Finset.sum_range_reflect
          (fun c => if cell m (R - 1 - r) c = a then 1 else 0) C]
        apply Finset.sum_congr rfl
        intro c _
        have hrr : R - r - 1 = R - 1 - r := by omega
        have hcc : C - c - 1 = C - 1 - c := by omega
        rw [hrr, hcc]
      · rw [rotateMap_else m deg R C h hR h0 h90 h180, count_flatten_mkGrid,
          count_flatten_eq_sum m R C h a, Finset.sum_comm]
        rw [← Finset.sum_range_reflect
          (fun r => ∑ c ∈ Finset.range C, if cell m r c = a then 1 else 0) R]
        apply Finset.sum_congr rfl
        intro r _
        apply Finset.sum_congr rfl
        intro c _
        have hrr : R - r - 1 = R - 1 - r := by omega
        rw [hrr]

theorem count_some_map_some (l : List Nat) (v : Nat) :
    (l.map some : List Tile).count (some v) = l.count v := by
  induction l with
  | nil => rfl
  | cons x xs ih =>
    simp only [List.map_cons, List.count_cons, ih]
    by_cases h : x = v
    · simp [h]
    · rw [if_neg (by simpa using h), if_neg (by simp [h])]

theorem count_moveRowLeft (row : List Tile) (v : Nat) :
    (moveRowLeft row).result.count (some v) = (finalVals row).count v := by
  rw [moveRowLeft_result, List.count_append, List.count_replicate,
    if_neg (by simp), count_some_map_some]
  omega

theorem count_moveRowLeft_ge (row : List Tile) (v : Nat) (hv : TARGET_TILE < v * 2) :
    row.count (some v) ≤ (moveRowLeft row).result.count (some v) := by
  rw [count_moveRowLeft, ← count_filterMap_id row v]
  have h := mergeRun_count_ge v hv none (row.filterMap id)
  simp only [Option.toList_none, List.count_nil] at h
  rw [finalVals, List.count_append]
  omega

theorem finalVals_of_no_merge (row : List Tile)
    (hpos : ∀ v ∈ row.filterMap id, 0 < v)
    (hg : (mergeRun none (row.filterMap id)).2.2 = 0) :
    finalVals row = row.filterMap id := by
  have h := mergeRun_no_merge none (row.filterMap id) (by simp) hpos hg
  simpa [finalVals] using h

theorem Rect_moveLeft (X : Grid) (R C : Nat) (h : Rect X R C) :
    Rect (moveLeft X).result R C := by
  rw [moveLeft_result]
  constructor
  · simp [h.1]
  · intro row hrow
    simp only [List.mem_map] at hrow
    obtain ⟨r, hr, rfl⟩ := hrow
    rw [moveRowLeft_length]
    exact h.2 r hr

theorem allSome_of_eq {α : Type} (l : List Nat) (g : Nat → Option α) (f : Nat → α)
    (h : ∀ x ∈ l, g x = some (f x)) : allSome (l.map g) = some (l.map f) := by
  induction l with
  | nil => rfl
  | cons x xs ih =>
    simp only [List.map_cons]
    rw [h x (by simp)]
    show (allSome (xs.map g)).map (f x :: ·) = _
    rw [ih fun y hy => h y (by simp [hy])]
    rfl

theorem cellChk_eq (m : Grid) (R C : Nat) (h : Rect m R C) (r c : Nat)
    (hr : r < R) (hc : c < C) : cellChk m r c = some (cell m r c) := by
  obtain ⟨hlen, hrows⟩ := h
  have hrm : r < m.length := by omega
  have hcm : c < (m[r]).length := by
    rw [hrows _ (List.getElem_mem hrm)]
    exact hc
  unfold cellChk
  rw [List.getElem?_eq_getElem hrm]
  show (m[r])[c]? = some (cell m r c)
  rw [List.getElem?_eq_getElem hcm, cell_eq m r c hrm hcm]

theorem rotateMapChk_eq (m : Grid) (deg : Nat) (R C : Nat) (h : Rect m R C)
    (hR : 0 < R) (hC : 0 < C) :
    rotateMapChk m deg = some (rotateMap m deg) := by
  have hwidth := width_eq m R C h hR
  have hlen := h.1
  cases m with
  | nil => simp at hlen; omega
  | cons row0 rest =>
    by_cases h0 : deg = 0
    · subst h0
      rfl
    · by_cases h90 : deg = 90
      · subst h90
        rw [rotateMap_90 _ R C h hR]
        simp only [rotateMapChk, if_neg h0, if_pos rfl, hwidth, hlen]
        apply allSome_of_eq
        intro c hc
        apply allSome_of_eq
        intro r hr
        exact cellChk_eq _ R C h r (C - c - 1) (List.mem_range.mp hr)
          (by have := List.mem_range.mp hc; omega)
      · by_cases h180 : deg = 180
        · subst h180
          rw [rotateMap_180 _ R C h hR]
          simp only [rotateMapChk, if_neg h0, if_neg h90, if_pos rfl, hwidth, hlen]
          apply allSome_of_eq
          intro r hr
          apply allSome_of_eq
          intro c hc
          exact cellChk_eq _ R C h (R - r - 1) (C - c - 1)
            (by have := List.mem_range.mp hr; omega)
            (by have := List.mem_range.mp hc; omega)
        · rw [rotateMap_else _ deg R C h hR h0 h90 h180]
          simp only [rotateMapChk, if_neg h0, if_neg h90, if_neg h180, hwidth, hlen]
          apply allSome_of_eq
          intro c hc
          apply allSome_of_eq
          intro r hr
          exact cellChk_eq _ R C h (R - r - 1) c
            (by have := List.mem_range.mp hr; omega) (List.mem_range.mp hc)

theorem Rect_rotateMapDeg (m : Grid) (d : Direction) (R C : Nat) (h : Rect m R C)
    (hR : 0 < R) (hC : 0 < C) :
    ∃ R2 C2, 0 < R2 ∧ 0 < C2 ∧ Rect (rotateMap m (rotateMapDeg d)) R2 C2 := by
  cases d with
  | left => exact ⟨R, C, hR, hC, h⟩
  | up =>
    refine ⟨C, R, hC, hR, ?_⟩
    rw [show rotateMapDeg Direction.up = 90 from rfl, rotateMap_90 m R C h hR]
    exact Rect_mkGrid C R _
  | right =>
    refine ⟨R, C, hR, hC, ?_⟩
    rw [show rotateMapDeg Direction.right = 180 from rfl, rotateMap_180 m R C h hR]
    exact Rect_mkGrid R C _
  | down =>
    refine ⟨C, R, hC, hR, ?_⟩
    rw [show rotateMapDeg Direction.down = 270 from rfl, rotateMap_270 m R C h hR]
    exact Rect_mkGrid C R _

theorem moveMapChk_eq (m : Grid) (d : Direction) (R C : Nat) (h : Rect m R C)
    (hR : 0 < R) (hC : 0 < C) :
    moveMapChk m d = some (moveMapIn2048Rule m d) := by
  obtain ⟨R2, C2, hR2, hC2, hrect2⟩ := Rect_rotateMapDeg m d R C h hR hC
  unfold moveMapChk
  rw [rotateMapChk_eq m (rotateMapDeg d) R C h hR hC]
  show (rotateMapChk (moveLeft (rotateMap m (rotateMapDeg d))).result
      (revertMapDeg d)).map _ = _
  rw [rotateMapChk_eq _ (revertMapDeg d) R2 C2 (Rect_moveLeft _ R2 C2 hrect2) hR2 hC2]
  rfl

theorem rotate_fwd_rev (m : Grid) (d : Direction) (R C : Nat) (h : Rect m R C)
    (hR : 0 < R) (hC : 0 < C) :
    rotateMap (rotateMap m (rotateMapDeg d)) (revertMapDeg d) = m := by
  cases d with
  | up => exact rotate90_then_270 m R C h hR hC
  | down => exact rotate270_then_90 m R C h hR hC
  | left => rfl
  | right => exact rotate180_then_180 m R C h hR hC

theorem rotate_rev_fwd (m : Grid) (d : Direction) (R C : Nat) (h : Rect m R C)
    (hR : 0 < R) (hC : 0 < C) :
    rotateMap (rotateMap m (revertMapDeg d)) (rotateMapDeg d) = m := by
  cases d with
  | up => exact rotate270_then_90 m R C h hR hC
  | down => exact rotate90_then_270 m R C h hR hC
  | left => rfl
  | right => exact rotate180_then_180 m R C h hR hC

theorem finalVals_le (row : List Tile)
    (hrow : ∀ v ∈ row.filterMap id, v ≤ TARGET_TILE) :
    ∀ v ∈ finalVals row, v ≤ TARGET_TILE := by
  intro v hv
  have h := mergeRun_le none (row.filterMap id) (by simp) hrow
  rw [finalVals] at hv
  rcases List.mem_append.mp hv with h1 | h1
  · exact h.1 v h1
  · rcases hp : (mergeRun none (row.filterMap id)).2.1 with _ | w
    · simp [hp] at h1
    · rw [hp, Option.toList_some] at h1
      simp only [List.mem_singleton] at h1
      subst h1
      exact h.2 v hp

theorem mem_moveLeft_flatten (X : Grid) (w : Nat)
    (hw : some w ∈ (moveLeft X).result.flatten) :
    ∃ row ∈ X, w ∈ finalVals row := by
  rw [moveLeft_result, List.mem_flatten] at hw
  obtain ⟨rowo, h1, h2⟩ := hw
  simp only [List.mem_map] at h1
  obtain ⟨row, hrow, rfl⟩ := h1
  refine ⟨row, hrow, ?_⟩
  rw [moveRowLeft_result] at h2
  rcases List.mem_append.mp h2 with h3 | h3
  · simp only [List.mem_map] at h3
    obtain ⟨w2, hw2, hww⟩ := h3
    injection hww with hww
    exact hww ▸ hw2
  · exact absurd (List.eq_of_mem_replicate h3) (by simp)

theorem even_sum_of_forall (l : List Nat) (h : ∀ x ∈ l, Even x) : Even l.sum := by
  induction l with
  | nil => simp
  | cons x xs ih =>
    rw [List.sum_cons]
    exact (h x (by simp)).add (ih fun y hy => h y (by simp [hy]))

/-! ### Claim theorems -/

/-- C1 (amended): for every rectangular grid with at least one row and at
least one column, rotating by the forward degree of a direction and then by
its reverse degree restores the grid, dimension-wise and cell-wise. -/
theorem claim1_rotate_round_trip (m : Grid) (d : Direction) (R C : Nat)
    (h : Rect m R C) (hR : 0 < R) (hC : 0 < C) :
    rotateMap (rotateMap m (rotateMapDeg d)) (revertMapDeg d) = m :=
  rotate_fwd_rev m d R C h hR hC

/-- C1 counterexample: the 1-row, 0-column grid `[[]]` is rectangular, yet
the round trip for direction up does not return it: the first rotation
yields the empty grid and the second faults reading `map[0].length`
(checked model: `none`); the unchecked embedding returns `[]`, not `[[]]`. -/
theorem claim1_cex :
    ((rotateMapChk [[]] (rotateMapDeg Direction.up)).bind fun g =>
        rotateMapChk g (revertMapDeg Direction.up)) ≠ some [[]] ∧
      rotateMap (rotateMap [[]] (rotateMapDeg Direction.up))
        (revertMapDeg Direction.up) ≠ [[]] := by
  decide

/-- C1 witness: the amended round trip holds on a concrete 2×3 grid. -/
theorem claim1_witness :
    Rect [[some 2, none, some 4], [none, some 8, some 16]] 2 3 ∧
      rotateMap (rotateMap [[some 2, none, some 4], [none, some 8, some 16]]
          (rotateMapDeg Direction.up)) (revertMapDeg Direction.up) =
        [[some 2, none, some 4], [none, some 8, some 16]] :=
  ⟨by decide, claim1_rotate_round_trip _ Direction.up 2 3 (by decide)
    (by decide) (by decide)⟩

/-- C3 (amended): for every rectangular grid with at least one row and at
least one column, the moved flag is true exactly when the returned grid
differs from the input grid in at least one cell. -/
theorem claim3_moved_iff (m : Grid) (d : Direction) (R C : Nat) (h : Rect m R C)
    (hR : 0 < R) (hC : 0 < C) :
    ((moveMapIn2048Rule m d).isMoved = true) ↔
      (moveMapIn2048Rule m d).result ≠ m := by
  obtain ⟨R2, C2, hR2, hC2, hrect2⟩ := Rect_rotateMapDeg m d R C h hR hC
  have h1 : (moveMapIn2048Rule m d).isMoved =
      (moveLeft (rotateMap m (rotateMapDeg d))).isMoved := rfl
  have h2 : (moveMapIn2048Rule m d).result =
      rotateMap (moveLeft (rotateMap m (rotateMapDeg d))).result
        (revertMapDeg d) := rfl
  rw [h1, h2, moveLeft_isMoved_iff]
  constructor
  · intro hne hcon
    apply hne
    have h3 := congrArg (fun g => rotateMap g (rotateMapDeg d)) hcon
    simp only at h3
    rwa [rotate_rev_fwd _ d R2 C2 (Rect_moveLeft _ R2 C2 hrect2) hR2 hC2] at h3
  · intro hne hcon
    apply hne
    rw [hcon]
    exact rotate_fwd_rev m d R C h hR hC

/-- C3 counterexample: the grid `[[]]` is rectangular, but the source
faults on it (checked model: `none`) instead of returning a flag, and the
unchecked embedding returns moved = false together with a result grid that
differs from the input. -/
theorem claim3_cex :
    moveMapChk [[]] Direction.down = none ∧
      (moveMapIn2048Rule [[]] Direction.down).isMoved = false ∧
      (moveMapIn2048Rule [[]] Direction.down).result ≠ [[]] := by
  decide

/-- C3 witness: the amended equivalence at a concrete 1×2 grid. -/
theorem claim3_witness :
    Rect [[some 2, some 2]] 1 2 ∧
      (((moveMapIn2048Rule [[some 2, some 2]] Direction.left).isMoved = true) ↔
        (moveMapIn2048Rule [[some 2, some 2]] Direction.left).result ≠
          [[some 2, some 2]]) :=
  ⟨by decide, claim3_moved_iff _ Direction.left 1 2 (by decide) (by decide)
    (by decide)⟩

/-- C4 (amended): the 90-degree rotation of a rectangular R×C grid is a C×R
grid (row count = input column count, column count = input row count) whose
cell at (row r, col c) equals the input cell at (row c, col C−r−1). -/
theorem claim4_rotate90 (m : Grid) (R C r c : Nat) (h : Rect m R C)
    (hR : 0 < R) (hC : 0 < C) (hr : r < C) (hc : c < R) :
    Rect (rotateMap m 90) C R ∧
      cell (rotateMap m 90) r c = cell m c (C - r - 1) := by
  rw [rotateMap_90 m R C h hR]
  exact ⟨Rect_mkGrid C R _, cell_mkGrid C R _ r c hr hc⟩

/-- C4 counterexample: for the 2×2 grid [[1,2],[3,4]], the output cell of
the 90-degree rotation at row 0, col 1 is 4, while the claimed formula
(input cell at row 0, col C−c−1 = 0) gives 1. -/
theorem claim4_cex :
    cell (rotateMap [[some 1, some 2], [some 3, some 4]] 90) 0 1 ≠
      cell [[some 1, some 2], [some 3, some 4]] 0 (2 - 1 - 1) := by
  decide

/-- C4 witness: the amended formula at the same concrete grid and index. -/
theorem claim4_witness :
    Rect [[some 1, some 2], [some 3, some 4]] 2 2 ∧
      (Rect (rotateMap [[some 1, some 2], [some 3, some 4]] 90) 2 2 ∧
        cell (rotateMap [[some 1, some 2], [some 3, some 4]] 90) 0 1 =
          cell [[some 1, some 2], [some 3, some 4]] 1 (2 - 0 - 1)) :=
  ⟨by decide, claim4_rotate90 _ 2 2 0 1 (by decide) (by decide) (by decide)
    (by decide) (by decide)⟩

/-- C5 (amended): the merge ceiling of the row merge is the hardcoded
constant TARGET_TILE = 128, not an independent configuration input: the
source's moveRowLeft coincides with the ceiling-parameterized variant
instantiated at exactly TARGET_TILE (the same constant the caller passes to
reached as the win target). -/
theorem claim5_ceiling_hardcoded :
    (∀ row, moveRowLeft row = moveRowLeftCeil TARGET_TILE row) ∧
      TARGET_TILE = 128 := by
  have hstep : moveRowStepCeil TARGET_TILE = moveRowStep := by
    funext acc cellv
    cases cellv with
    | none => rfl
    | some c =>
      obtain ⟨l, res, g⟩ := acc
      cases l with
      | none => rfl
      | some l0 => rfl
  exact ⟨fun row => by simp only [moveRowLeft, moveRowLeftCeil, hstep], rfl⟩

/-- C5 counterexample: no choice of ceiling below 128 is respected: with
ceiling 64 the merge of two 64s would have to be suppressed (128 > 64),
but the code merges them, because the guard reads the fixed TARGET_TILE. -/
theorem claim5_cex :
    (moveRowLeft [some 64, some 64, none, none]).result =
      [some 128, none, none, none] ∧ ¬(64 * 2 ≤ 64) := by
  decide

/-- C6: the gained value of a move is exactly the sum of the merged-tile
values created in that move (row by row of the rotated grid, each merge of
two equal tiles v contributing the created tile 2v), and it is always even
and nonnegative. -/
theorem claim6_gained (m : Grid) (d : Direction) :
    (moveMapIn2048Rule m d).gained =
        ((rotateMap m (rotateMapDeg d)).map fun r => (rowMerged r).sum).sum ∧
      (∀ r : List Tile, ∀ x ∈ rowMerged r, ∃ v, x = v * 2 ∧ v * 2 ≤ TARGET_TILE) ∧
      Even (moveMapIn2048Rule m d).gained ∧
      0 ≤ (moveMapIn2048Rule m d).gained := by
  refine ⟨?_, ?_, ?_, Nat.zero_le _⟩
  · show (moveLeft (rotateMap m (rotateMapDeg d))).gained = _
    rw [moveLeft_gained]
    congr 1
    apply List.map_congr_left
    intro r _
    rw [moveRowLeft_gained, mergeRun_gained_eq_sum]
    rfl
  · intro r x hx
    exact mergedVals_doubled none _ x hx
  · show Even (moveLeft (rotateMap m (rotateMapDeg d))).gained
    rw [moveLeft_gained]
    apply even_sum_of_forall
    intro x hx
    simp only [List.mem_map] at hx
    obtain ⟨r, _, rfl⟩ := hx
    rw [moveRowLeft_gained]
    exact mergeRun_gained_even none _

/-- C7: moving the row [2, null, 2, 2] left yields exactly [4, 2, null,
null] with gained = 4 and moved = true: the leftmost pair of 2s merges and
the trailing 2 does not chain-merge with the freshly created 4. -/
theorem claim7_concrete_row :
    moveRowLeft [some 2, none, some 2, some 2] =
      ⟨[some 4, some 2, none, none], true, 4⟩ := by
  decide

/-- C9 (amended): on every rectangular grid with at least one row and at
least one column, the move is total for each direction: every array access
of the rotation and row-merge steps is in bounds and the checked evaluation
returns exactly the unchecked result. -/
theorem claim9_total (m : Grid) (d : Direction) (R C : Nat) (h : Rect m R C)
    (hR : 0 < R) (hC : 0 < C) :
    moveMapChk m d = some (moveMapIn2048Rule m d) :=
  moveMapChk_eq m d R C h hR hC

/-- C9 counterexample: the grid [[]] is rectangular with at least one row,
yet the move faults for direction up: the reverse rotation reads
`map[0].length` of an empty intermediate grid. -/
theorem claim9_cex : Rect [[]] 1 0 ∧ moveMapChk [[]] Direction.up = none := by
  decide

/-- C9 witness: the amended totality statement at a concrete 2×2 grid. -/
theorem claim9_witness :
    Rect [[some 2, none], [none, some 4]] 2 2 ∧
      moveMapChk [[some 2, none], [none, some 4]] Direction.down =
        some (moveMapIn2048Rule [[some 2, none], [none, some 4]] Direction.down) :=
  ⟨by decide, claim9_total _ Direction.down 2 2 (by decide) (by decide)
    (by decide)⟩

/-- C10: every row returned by moveRowLeft is fully compacted to the left:
the output row is a block of non-empty values followed by a block of empty
cells, so no empty cell precedes a non-empty one, even when merges were
blocked by the ceiling. -/
theorem claim10_compacted (row : List Tile) :
    ∃ (vs : List Nat) (n : Nat),
      (moveRowLeft row).result = vs.map some ++ List.replicate n none :=
  ⟨finalVals row, row.length - (finalVals row).length, moveRowLeft_result row⟩

/-- C2: if every non-empty tile of a (well-formed) grid is at most the
ceiling TARGET_TILE, then every non-empty tile of the moved grid is at most
the ceiling; moreover a value whose double exceeds the ceiling is never
consumed by a merge: its multiplicity in the grid does not decrease, so two
adjacent equal tiles whose double would exceed the ceiling both remain
present in the output. -/
theorem claim2_ceiling (m : Grid) (d : Direction) (R C v : Nat) (h : Rect m R C)
    (hR : 0 < R) (hC : 0 < C)
    (hb : ∀ x ∈ m.flatten, x.getD 0 ≤ TARGET_TILE) :
    (∀ x ∈ (moveMapIn2048Rule m d).result.flatten, x.getD 0 ≤ TARGET_TILE) ∧
      (TARGET_TILE < v * 2 →
        m.flatten.count (some v) ≤
          (moveMapIn2048Rule m d).result.flatten.count (some v)) := by
  obtain ⟨R2, C2, hR2, hC2, hrect2⟩ := Rect_rotateMapDeg m d R C h hR hC
  constructor
  · intro x hx
    cases x with
    | none => exact Nat.zero_le _
    | some w =>
      have h1 : some w ∈ (moveLeft (rotateMap m (rotateMapDeg d))).result.flatten :=
        mem_rotateMap (moveLeft (rotateMap m (rotateMapDeg d))).result
          (revertMapDeg d) w hx
      obtain ⟨row, hrow, hwv⟩ := mem_moveLeft_flatten _ _ h1
      have hrowb : ∀ u ∈ row.filterMap id, u ≤ TARGET_TILE := by
        intro u hu
        have h2 : some u ∈ row := (mem_filterMap_id row u).mp hu
        have h3 : some u ∈ (rotateMap m (rotateMapDeg d)).flatten :=
          List.mem_flatten.mpr ⟨row, hrow, h2⟩
        have h4 : some u ∈ m.flatten := mem_rotateMap _ _ _ h3
        simpa using hb _ h4
      simpa using finalVals_le row hrowb w hwv
  · intro hv
    have e1 : m.flatten.count (some v) =
        (rotateMap m (rotateMapDeg d)).flatten.count (some v) :=
      (count_rotateMap m R C h hR hC _ _).symm
    have e2 : (rotateMap m (rotateMapDeg d)).flatten.count (some v) ≤
        (moveLeft (rotateMap m (rotateMapDeg d))).result.flatten.count (some v) := by
      rw [List.count_flatten, List.count_flatten, moveLeft_result, List.map_map]
      apply List.sum_le_sum
      intro r _
      show r.count (some v) ≤ (moveRowLeft r).result.count (some v)
      exact count_moveRowLeft_ge r v hv
    have e3 : (moveMapIn2048Rule m d).result.flatten.count (some v) =
        (moveLeft (rotateMap m (rotateMapDeg d))).result.flatten.count (some v) :=
      count_rotateMap _ R2 C2 (Rect_moveLeft _ R2 C2 hrect2) hR2 hC2 _ _
    omega

/-- C2 witness: a concrete grid at the ceiling: two 128s cannot merge and
both remain, and no output tile exceeds 128. -/
theorem claim2_witness :
    Rect [[some 128, some 128], [some 2, none]] 2 2 ∧
      ((∀ x ∈ (moveMapIn2048Rule [[some 128, some 128], [some 2, none]]
          Direction.left).result.flatten, x.getD 0 ≤ TARGET_TILE) ∧
        (TARGET_TILE < 128 * 2 →
          ([[some 128, some 128], [some 2, none]] : Grid).flatten.count (some 128) ≤
            (moveMapIn2048Rule [[some 128, some 128], [some 2, none]]
              Direction.left).result.flatten.count (some 128))) :=
  ⟨by decide, claim2_ceiling _ Direction.left 2 2 128 (by decide) (by decide)
    (by decide) (by decide)⟩

/-- C8: when a move gains no score, no merge happened, and the multiset of
non-empty tile values of the output grid equals that of the input grid. -/
theorem claim8_mass_conservation (m : Grid) (d : Direction) (R C : Nat)
    (h : Rect m R C) (hR : 0 < R) (hC : 0 < C)
    (hpos : ∀ x ∈ m.flatten, 0 < x.getD 1)
    (hg : (moveMapIn2048Rule m d).gained = 0) :
    (gridVals (moveMapIn2048Rule m d).result : Multiset Nat) =
      (gridVals m : Multiset Nat) := by
  rw [Multiset.coe_eq_coe, List.perm_iff_count]
  intro v
  obtain ⟨R2, C2, hR2, hC2, hrect2⟩ := Rect_rotateMapDeg m d R C h hR hC
  have e1 : ∀ row ∈ rotateMap m (rotateMapDeg d),
      (moveRowLeft row).result.count (some v) = row.count (some v) := by
    intro row hrow
    have hrpos : ∀ u ∈ row.filterMap id, 0 < u := by
      intro u hu
      have h2 : some u ∈ row := (mem_filterMap_id row u).mp hu
      have h3 : some u ∈ (rotateMap m (rotateMapDeg d)).flatten :=
        List.mem_flatten.mpr ⟨row, hrow, h2⟩
      have h4 : some u ∈ m.flatten := mem_rotateMap _ _ _ h3
      simpa using hpos _ h4
    have hrg : (mergeRun none (row.filterMap id)).2.2 = 0 := by
      have hsum : ((rotateMap m (rotateMapDeg d)).map
          fun r => (moveRowLeft r).gained).sum = 0 := by
        rw [← moveLeft_gained]
        exact hg
      have h5 := List.sum_eq_zero_iff.mp hsum _
        (List.mem_map.mpr ⟨row, hrow, rfl⟩)
      rwa [moveRowLeft_gained] at h5
    rw [count_moveRowLeft, finalVals_of_no_merge row hrpos hrg,
      count_filterMap_id]
  have e2 : (moveMapIn2048Rule m d).result.flatten.count (some v) =
      (moveLeft (rotateMap m (rotateMapDeg d))).result.flatten.count (some v) :=
    count_rotateMap _ R2 C2 (Rect_moveLeft _ R2 C2 hrect2) hR2 hC2 _ _
  have e3 : (moveLeft (rotateMap m (rotateMapDeg d))).result.flatten.count (some v) =
      (rotateMap m (rotateMapDeg d)).flatten.count (some v) := by
    rw [List.count_flatten, List.count_flatten, moveLeft_result, List.map_map]
    congr 1
    apply List.map_congr_left
    intro row hrow
    show (moveRowLeft row).result.count (some v) = row.count (some v)
    exact e1 row hrow
  have e4 : (rotateMap m (rotateMapDeg d)).flatten.count (some v) =
      m.flatten.count (some v) :=
    count_rotateMap m R C h hR hC _ _
  show (gridVals _).count v = (gridVals m).count v
  rw [gridVals, gridVals, count_filterMap_id, count_filterMap_id]
  omega

/-- C8 witness: a merge-free move on a concrete 2×2 grid preserves the
multiset of non-empty tile values. -/
theorem claim8_witness :
    Rect [[some 2, none], [none, some 4]] 2 2 ∧
      (moveMapIn2048Rule [[some 2, none], [none, some 4]] Direction.left).gained = 0 ∧
      (gridVals (moveMapIn2048Rule [[some 2, none], [none, some 4]]
          Direction.left).result : Multiset Nat) =
        (gridVals [[some 2, none], [none, some 4]] : Multiset Nat) :=
  ⟨by decide, by decide, claim8_mass_conservation _ Direction.left 2 2
    (by decide) (by decide) (by decide) (by decide) (by decide)⟩
